import Mathlib

/-!
Verification development for a JavaScript Game of Life engine with an RLE
pattern decoder (source: `game-of-life.js`).  The JavaScript is shallowly
embedded: grids become `List (List Nat)` (the source stores the numbers
`dead = 0` / `alive = 1`; `grid[i]` is the column at abscissa `i`), fallible
array accesses become `Option` (a JS read of `undefined[j]`, i.e. a thrown
`TypeError`, is `none`), and JS numbers that may be `NaN` or infinite become
the inductive `JsNum` over `ℚ`.
-/

namespace GoL

/-- Source: `const dead = 0`. -/
def dead : Nat := 0

/-- Source: `const alive = 1`. -/
def alive : Nat := 1

/-- JS array read `g[i][j]` for natural indices: `none` models the
`TypeError` raised when `g[i]` is `undefined` (index out of range), and
a read past a row's end (`undefined`, which never compares equal to a
cell value in the source). -/
def gridGet (g : List (List Nat)) (i j : Nat) : Option Nat :=
  (g.get? i).bind fun col => col.get? j

/-- JS array read `g[i][j]` for integer indices: a negative index is a
plain (absent) property in JS, so the read of `g[i]` yields `undefined`
and the subsequent `[j]` throws, modelled as `none`. -/
def gridGetZ (g : List (List Nat)) (i j : ℤ) : Option Nat :=
  if i < 0 ∨ j < 0 then none
  else gridGet g i.toNat j.toNat

/-- The engine state owned by `GameOfLife`: the fields `#width`, `#height`,
`#torus` and `#grid` of the source class (rendering-only fields are not
modelled). -/
structure Engine where
  width : Nat
  height : Nat
  torus : Bool
  grid : List (List Nat)
deriving DecidableEq

/-- Source: `#createGrid(filler)` — builds `width` columns of `height`
cells; when `filler` is a function each cell is `filler(i, j, this) ?
alive : dead`, otherwise the column is `new Array(height).fill(dead)`. -/
def createGrid (w h : Nat) (filler : Option (Nat → Nat → Bool)) : List (List Nat) :=
  (List.range w).map fun i =>
    match filler with
    | some f => (List.range h).map fun j => if f i j then alive else dead
    | none => List.replicate h dead

/-- A JS number argument: finite (a rational, standing in for a double),
`NaN`, or an infinity. -/
inductive JsNum where
  | nan
  | posInf
  | negInf
  | fin (q : ℚ)
deriving DecidableEq

/-- Floor of the fraction `a / b` for a positive denominator `b`, as an
integer floor-division (kernel-computable; `Int.fdiv` rounds toward
negative infinity, so this is `⌊a / b⌋` whenever `0 < b`, reduced
fraction or not). -/
def floorDiv (a b : ℤ) : ℤ := Int.fdiv a b

/-- Ceiling of the fraction `a / b` for a positive denominator `b`. -/
def ceilDiv (a b : ℤ) : ℤ := -(Int.fdiv (-a) b)

/-- Source: `Math.round(+i)` followed by the `isNaN(i) || !isFinite(i)`
test of `cell`.  `Math.round` rounds half toward positive infinity,
i.e. `Math.round(x) = floor(x + 0.5)`; written over the numerator and
denominator, `q + 1/2 = (2 num + den) / (2 den)` with `2 den > 0`.  On
a non-finite number the result is non-finite, modelled as `none`. -/
def jsRound : JsNum → Option ℤ
  | .fin q => some (floorDiv (2 * q.num + (q.den : ℤ)) (2 * (q.den : ℤ)))
  | _ => none

/-- Source: the body of `cell(i, j)` after rounding (lines 59–69).
Toroidal mode computes `i < 0 ? width + i % width : i % width` with the
JS truncating `%` (`Int.tmod`); bounded mode returns `dead` out of
range.  The final `this.#grid[i][j]` read is `gridGetZ`. -/
def cellZ (e : Engine) (i j : ℤ) : Option Nat :=
  if e.torus then
    let wi : ℤ := if i < 0 then (e.width : ℤ) + Int.tmod i (e.width : ℤ)
                  else Int.tmod i (e.width : ℤ)
    let wj : ℤ := if j < 0 then (e.height : ℤ) + Int.tmod j (e.height : ℤ)
                  else Int.tmod j (e.height : ℤ)
    gridGetZ e.grid wi wj
  else
    if i < 0 ∨ (e.width : ℤ) ≤ i ∨ j < 0 ∨ (e.height : ℤ) ≤ j then some dead
    else gridGetZ e.grid i j

/-- Source: `cell(i, j)` — rounds both arguments, returns `dead` when
either is `NaN` or infinite, then dispatches on the topology. -/
def cell (e : Engine) (i j : JsNum) : Option Nat :=
  match jsRound i, jsRound j with
  | some zi, some zj => cellZ e zi zj
  | _, _ => some dead

/-- Source: `#neighbours(i, j)` — the sum of the eight Moore neighbours,
each looked up through `this.cell`; `Math.round` is the identity on the
integer arguments used here, so the lookups are `cellZ` (see
`cell_intCast`).  A throw in any lookup propagates (`Option.bind`). -/
def neighbours (e : Engine) (i j : ℤ) : Option Nat := do
  let a ← cellZ e (i - 1) (j - 1)
  let b ← cellZ e i (j - 1)
  let c ← cellZ e (i + 1) (j - 1)
  let d ← cellZ e (i - 1) j
  let f ← cellZ e (i + 1) j
  let g ← cellZ e (i - 1) (j + 1)
  let h ← cellZ e i (j + 1)
  let k ← cellZ e (i + 1) (j + 1)
  pure (a + b + c + d + f + g + h + k)

/-- Source: the closure passed to `#createGrid` inside `update()` —
computes the neighbour count, switches on the pre-step cell
`this.#grid[i][j]` (an `alive` cell survives on 2 or 3 neighbours, a
`dead` cell is born on 3, anything else yields `false`), and reports
whether the new cell is alive. -/
def stepCell (e : Engine) (i j : Nat) : Option Bool := do
  let n ← neighbours e (i : ℤ) (j : ℤ)
  let c ← gridGet e.grid i j
  pure (if c = alive then decide (n = 2 ∨ n = 3)
        else if c = dead then decide (n = 3)
        else false)

/-- The inner loop of `#createGrid` as driven by `update()`: builds the
column at abscissa `i` cell by cell (`j` ascending) while threading the
`result` counter, which the closure increments exactly when it returns
`true`. -/
def buildCol (e : Engine) (i : Nat) : Nat → Option (List Nat × Nat)
  | 0 => some ([], 0)
  | j + 1 =>
    match buildCol e i j, stepCell e i j with
    | some (col, r), some b =>
      some (col ++ [if b then alive else dead], if b then r + 1 else r)
    | _, _ => none

/-- The outer loop of `#createGrid` as driven by `update()`: builds the
columns (`i` ascending), accumulating the live-cell counter across
columns. -/
def buildGrid (e : Engine) : Nat → Option (List (List Nat) × Nat)
  | 0 => some ([], 0)
  | i + 1 =>
    match buildGrid e i, buildCol e i e.height with
    | some (g, r), some (col, rc) => some (g ++ [col], r + rc)
    | _, _ => none

/-- Source: `update()` — one synchronous pass replacing the whole grid,
every read (`#neighbours`, the `switch` scrutinee) taken from the
pre-step `this.#grid`, which is only reassigned after the pass; returns
the new grid together with the value of the `result` counter. -/
def update (e : Engine) : Option (List (List Nat) × Nat) :=
  buildGrid e e.width

/-- Number of `alive` entries in one column. -/
def aliveCountCol : List Nat → Nat
  | [] => 0
  | c :: cs => (if c = alive then 1 else 0) + aliveCountCol cs

/-- Number of `alive` entries in a grid. -/
def aliveCount : List (List Nat) → Nat
  | [] => 0
  | col :: g => aliveCountCol col + aliveCount g

/-- The `size` option as passed to the constructor: either a JS number or
a value of some other type (`typeof size !== 'number'`). -/
inductive SizeArg where
  | notNum
  | ofNum (n : JsNum)
deriving DecidableEq

/-- The failures the constructor can raise while the engine is built. -/
inductive CtorErr where
  | typeError
  | rangeError
  | arrayLength
deriving DecidableEq

/-- Result of running the constructor. -/
inductive CtorResult where
  | ok (e : Engine)
  | err (c : CtorErr)
deriving DecidableEq

/-- Source: the `GameOfLife` constructor (lines 14–30), for a valid
canvas and color.  `typeof size !== 'number'` throws `TypeError`;
`isNaN(size) || !isFinite(size) || size < 0` throws `RangeError` (note:
`size = 0` passes this test); the grid dimensions are
`Math.ceil(canvas.width / size)` and `Math.ceil(canvas.height / size)`,
written over the exact fraction `cw / q = (cw * den) / num` whose
denominator `num` is positive in the surviving branch.
With `size = 0` the quotient is infinite (or `NaN` for a zero canvas
dimension), and `new Array` with that length throws a `RangeError`
(invalid array length) inside `#createGrid`.  `framesPerSecond` is
only stored, without any validation — the `fps` argument below is
accepted whatever it is (even a non-number) and influences nothing that
this model observes.  A missing (`none`) filler passes the
`filler && typeof filler !== 'function'` test and `#createGrid` takes
its `row.fill(dead)` branch. -/
def construct (cw ch : Nat) (filler : Option (Nat → Nat → Bool))
    (size : SizeArg) (torus : Bool) (_fps : SizeArg) : CtorResult :=
  match size with
  | .notNum => .err .typeError
  | .ofNum .nan => .err .rangeError
  | .ofNum .posInf => .err .rangeError
  | .ofNum .negInf => .err .rangeError
  | .ofNum (.fin q) =>
    if q < 0 then .err .rangeError
    else if q = 0 then .err .arrayLength
    else
      let w : Nat := (ceilDiv ((cw : ℤ) * (q.den : ℤ)) q.num).toNat
      let h : Nat := (ceilDiv ((ch : ℤ) * (q.den : ℤ)) q.num).toNat
      .ok ⟨w, h, torus, createGrid w h filler⟩

/-! ## RLE decoder (`loadRle`, `rleFiller`) -/

/-- The JS whitespace class `\s` restricted to the characters that can
occur inside one line (the input is split on `'\n'` first). -/
def isJsWs (c : Char) : Bool :=
  c = ' ' ∨ c = '\t' ∨ c = '\n' ∨ c = '\r' ∨ c = '\x0b' ∨ c = '\x0c'

/-- Source: `line.trim()`. -/
def trimChars (l : List Char) : List Char :=
  ((l.dropWhile isJsWs).reverse.dropWhile isJsWs).reverse

/-- Helper for `splitNl`: returns the segment before the first `'\n'`
paired with the remaining segments. -/
def splitNlAux : List Char → List Char × List (List Char)
  | [] => ([], [])
  | c :: cs =>
    let r := splitNlAux cs
    if c = '\n' then ([], r.1 :: r.2) else (c :: r.1, r.2)

/-- Source: `runLengthEncoded.split('\n')`. -/
def splitNl (l : List Char) : List (List Char) :=
  (splitNlAux l).1 :: (splitNlAux l).2

/-- Regex `\s*` — skip whitespace. -/
def skipWs (l : List Char) : List Char := l.dropWhile isJsWs

/-- Match one literal character. -/
def expectChar (c : Char) : List Char → Option (List Char)
  | d :: rest => if d = c then some rest else none
  | [] => none

/-- Numeric value of a digit run (base 10). -/
def digitsToNat (ds : List Char) : Nat :=
  ds.foldl (fun a c => a * 10 + (c.toNat - 48)) 0

/-- One attempt of the header regex
`\s*x\s*=\s*(\d+),\s*y\s*=\s*(\d+)(,\s*rule\s*=\s*(.+))?` at a fixed
start position; the optional `rule` group never causes failure and its
capture is unused, so matching ends after the height digits. -/
def matchHeaderAt (l : List Char) : Option (Nat × Nat) := do
  let r ← expectChar 'x' (skipWs l)
  let r ← expectChar '=' (skipWs r)
  let r := skipWs r
  let ds := r.takeWhile Char.isDigit
  if ds.isEmpty then none else do
    let r ← expectChar ',' (r.dropWhile Char.isDigit)
    let r ← expectChar 'y' (skipWs r)
    let r ← expectChar '=' (skipWs r)
    let r := skipWs r
    let hs := r.takeWhile Char.isDigit
    if hs.isEmpty then none
    else some (digitsToNat ds, digitsToNat hs)

/-- Source: `regex.exec(line)` — an unanchored search: the first start
position at which `matchHeaderAt` succeeds wins. -/
def execHeader : List Char → Option (Nat × Nat)
  | [] => matchHeaderAt []
  | l :: rest =>
    match matchHeaderAt (l :: rest) with
    | some wh => some wh
    | none => execHeader rest

/-- Decoder cursor state: the grid under construction and the mutable
`runCount`, `x`, `y` of `loadRle`. -/
structure RleState where
  grid : List (List Bool)
  runCount : Nat
  x : Nat
  y : Nat
deriving DecidableEq

/-- JS write `row[x] = alive` on one row: in range it overwrites; past
the end the array grows to length `x + 1` (the skipped slots are holes,
i.e. `undefined`; like `dead` they are never equal to `alive` in any
read the source performs, so both are modelled as `false`). -/
def setCell (row : List Bool) (x : Nat) : List Bool :=
  if x < row.length then row.set x true
  else row ++ List.replicate (x - row.length) false ++ [true]

/-- JS write `grid[y][x] = alive`: when `y` is out of range, `grid[y]`
is `undefined` and the assignment throws (`none`). -/
def writeAlive (g : List (List Bool)) (y x : Nat) : Option (List (List Bool)) :=
  match g.get? y with
  | none => none
  | some row => some (g.set y (setCell row x))

/-- The `for (let i = 0; i < runCount; ++i) grid[y][x + i] = alive` loop
(and, for a zero `runCount`, the single write): `n` writes starting at
abscissa `x`. -/
def writeRun (g : List (List Bool)) (y : Nat) : Nat → Nat → Option (List (List Bool))
  | _, 0 => some g
  | x, n + 1 => (writeAlive g y x).bind fun g2 => writeRun g2 y (x + 1) n

/-- Outcome of consuming one body character (or a run of them):
continue with a new state, return the grid (the `!` tag), or throw. -/
inductive StepRes where
  | cont (st : RleState)
  | done (g : List (List Bool))
  | err
deriving DecidableEq

/-- Source: the `switch (char)` of `loadRle`'s body loop.  Note that the
`'o'` case falls through into `'b'` (mark, then advance), and that the
`'$'` case leaves `runCount` untouched. -/
def stepChar (st : RleState) (c : Char) : StepRes :=
  if c = ' ' ∨ c = '\r' ∨ c = '\t' then .cont st
  else if c.isDigit then
    .cont { st with runCount := st.runCount * 10 + (c.toNat - 48) }
  else if c = 'o' then
    match writeRun st.grid st.y st.x (if st.runCount = 0 then 1 else st.runCount) with
    | none => .err
    | some g =>
      .cont { grid := g, runCount := 0,
              x := st.x + (if st.runCount > 0 then st.runCount else 1), y := st.y }
  else if c = 'b' then
    .cont { st with runCount := 0,
                    x := st.x + (if st.runCount > 0 then st.runCount else 1) }
  else if c = '$' then .cont { st with x := 0, y := st.y + 1 }
  else if c = '!' then .done st.grid
  else .err

/-- Source: `for (const char of line)` — consume the characters of one
body line, stopping early on `return` or throw. -/
def stepChars (st : RleState) : List Char → StepRes
  | [] => .cont st
  | c :: cs =>
    match stepChar st c with
    | .cont st2 => stepChars st2 cs
    | r => r

/-- Overall outcome of `loadRle`: a grid returned through `!`, the
`undefined` produced by falling off the end of the line loop, or a
thrown `SyntaxError`/`TypeError`. -/
inductive RleOut where
  | grid (g : List (List Bool))
  | noGrid
  | error
deriving DecidableEq

/-- Whether a decoder outcome is an actual grid. -/
def isGridResult : RleOut → Bool
  | .grid _ => true
  | _ => false

/-- Shape invariant of the grid being decoded: exactly `H` rows (rows
are only created by the header), each at least `W` wide (`o`-writes can
only grow a row). -/
def rowInv (W H : Nat) (g : List (List Bool)) : Prop :=
  g.length = H ∧ ∀ row ∈ g, W ≤ row.length

/-- Source: the line loop of `loadRle` after the header has been
consumed (`grid` is set): blank and `#` lines are skipped, every other
line is fed to the body `switch`. -/
def processLines (st : RleState) : List (List Char) → RleOut
  | [] => .noGrid
  | line :: rest =>
    let t := trimChars line
    if t.isEmpty then processLines st rest
    else if t.head? = some '#' then processLines st rest
    else
      match stepChars st t with
      | .cont st2 => processLines st2 rest
      | .done g => .grid g
      | .err => .error

/-- Source: the line loop of `loadRle` while `grid` is still unset: the
first non-blank, non-`#` line must match the header regex (else
`SyntaxError`), producing the `height × width` all-`dead` grid. -/
def loadRleLines : List (List Char) → RleOut
  | [] => .noGrid
  | line :: rest =>
    let t := trimChars line
    if t.isEmpty then loadRleLines rest
    else if t.head? = some '#' then loadRleLines rest
    else
      match execHeader t with
      | none => .error
      | some (w, h) =>
        processLines ⟨List.replicate h (List.replicate w false), 0, 0, 0⟩ rest

/-- Source: `loadRle(runLengthEncoded)`. -/
def loadRle (input : List Char) : RleOut :=
  loadRleLines (splitNl input)

/-- The `(W, H)` the header of the input declares: the first non-blank,
non-`#` line run through the same regex search `loadRle` uses. -/
def firstHeader : List (List Char) → Option (Nat × Nat)
  | [] => none
  | line :: rest =>
    let t := trimChars line
    if t.isEmpty then firstHeader rest
    else if t.head? = some '#' then firstHeader rest
    else execHeader t

/-- Modelled from the spec: the spec's `$`-dialect, in which a pending
run count is discarded at a row end; identical to `stepChar` except
that the `'$'` case also resets `runCount` to `0`.  Used only to
compare the source's behaviour with the spec's words. -/
def stepCharDiscard (st : RleState) (c : Char) : StepRes :=
  if c = '$' then .cont { st with x := 0, y := st.y + 1, runCount := 0 }
  else stepChar st c

/-- `stepChars` over the spec's `$`-dialect. -/
def stepCharsDiscard (st : RleState) : List Char → StepRes
  | [] => .cont st
  | c :: cs =>
    match stepCharDiscard st c with
    | .cont st2 => stepCharsDiscard st2 cs
    | r => r

/-- `processLines` over the spec's `$`-dialect. -/
def processLinesDiscard (st : RleState) : List (List Char) → RleOut
  | [] => .noGrid
  | line :: rest =>
    let t := trimChars line
    if t.isEmpty then processLinesDiscard st rest
    else if t.head? = some '#' then processLinesDiscard st rest
    else
      match stepCharsDiscard st t with
      | .cont st2 => processLinesDiscard st2 rest
      | .done g => .grid g
      | .err => .error

/-- `loadRle` over the spec's `$`-dialect. -/
def loadRleDiscard (input : List Char) : RleOut :=
  match splitNl input with
  | [] => .noGrid
  | lines => loadRleDiscardLines lines
where
  loadRleDiscardLines : List (List Char) → RleOut
  | [] => .noGrid
  | line :: rest =>
    let t := trimChars line
    if t.isEmpty then loadRleDiscardLines rest
    else if t.head? = some '#' then loadRleDiscardLines rest
    else
      match execHeader t with
      | none => .error
      | some (w, h) =>
        processLinesDiscard ⟨List.replicate h (List.replicate w false), 0, 0, 0⟩ rest

/-! ## The filler predicate returned by `rleFiller` -/

/-- The hidden mutable state of the closure `rleFiller` returns:
`let tranX, tranY` (initially `undefined`, i.e. `none`). -/
structure FillerState where
  tranX : Option ℤ
  tranY : Option ℤ
deriving DecidableEq

/-- Source: `Math.floor((game.width - width) / 2)` — the centering
offset for one axis. -/
def computeTran (g : ℤ) (p : Nat) : ℤ := Int.fdiv (g - (p : ℤ)) 2

/-- The pure tail of the closure: after offsetting, the translated
coordinate must lie inside the pattern and be marked `alive` there. -/
def fillerLookup (grid : List (List Bool)) (w h : Nat) (x y : ℤ) : Bool :=
  decide (0 ≤ x) && decide (x < (w : ℤ)) && decide (0 ≤ y) && decide (y < (h : ℤ)) &&
    decide (((grid.get? y.toNat).bind fun row => row.get? x.toNat) = some true)

/-- Source: one invocation of the predicate `rleFiller` returns
(lines 221–228).  `if (!tranX) tranX = ...` recomputes the cached
offset not only when it is `undefined` but also when the cached value
is `0` (falsy); likewise for `tranY`.  Returns the updated closure
state and the boolean answer. -/
def fillerCall (w h : Nat) (grid : List (List Bool)) (st : FillerState)
    (x y gw gh : ℤ) : FillerState × Bool :=
  let tx : ℤ :=
    match st.tranX with
    | some v => if v = 0 then computeTran gw w else v
    | none => computeTran gw w
  let ty : ℤ :=
    match st.tranY with
    | some v => if v = 0 then computeTran gh h else v
    | none => computeTran gh h
  (⟨some tx, some ty⟩, fillerLookup grid w h (x - tx) (y - ty))

/-- Modelled from the spec: the spec's predicate caches each offset the
first time it is computed and never recomputes it, even when the cached
value is `0`.  Used only to compare the source with the spec's words. -/
def fillerCallOnce (w h : Nat) (grid : List (List Bool)) (st : FillerState)
    (x y gw gh : ℤ) : FillerState × Bool :=
  let tx : ℤ :=
    match st.tranX with
    | some v => v
    | none => computeTran gw w
  let ty : ℤ :=
    match st.tranY with
    | some v => v
    | none => computeTran gh h
  (⟨some tx, some ty⟩, fillerLookup grid w h (x - tx) (y - ty))

/-! ## The run lifecycle (`start` / `stop`)

The browser's cooperative scheduler is modelled explicitly: a pending
callback is either the `setTimeout` stage scheduled by `start()` or the
`requestAnimationFrame` stage that the timeout's callback schedules
when it fires.  `#handler` holds the id of the last `setTimeout`,
`undefined` (`none`) otherwise; browser timer ids are positive, so
fresh ids are drawn from a counter starting at 1. -/

/-- A pending cooperative callback. -/
inductive Cb where
  | timeout (id : Nat)
  | frame (id : Nat)
deriving DecidableEq

/-- Scheduler-visible state of one engine: the `#handler` field, the
queue of pending callbacks, and the fresh-id counter. -/
structure Sched where
  handler : Option Nat
  pending : List Cb
  nextId : Nat
deriving DecidableEq

/-- The state before any `start()`: `#handler` is `undefined` and
nothing is scheduled. -/
def idleSched : Sched := ⟨none, [], 1⟩

/-- Source: `start()` — returns at once when `#handler !== undefined`,
otherwise stores a fresh timer id in `#handler` and schedules the
timeout callback. -/
def startOp (s : Sched) : Sched :=
  match s.handler with
  | some _ => s
  | none =>
    { handler := some s.nextId,
      pending := s.pending ++ [Cb.timeout s.nextId],
      nextId := s.nextId + 1 }

/-- Source: `stop()` — `if (this.#handler) clearTimeout(this.#handler)`
(the truthiness test skips a zero id), then `#handler = undefined`.
`clearTimeout` cancels only that timeout; it cannot cancel an
animation-frame callback. -/
def stopOp (s : Sched) : Sched :=
  let pending :=
    match s.handler with
    | some id => if id = 0 then s.pending else s.pending.filter (· ≠ Cb.timeout id)
    | none => s.pending
  { handler := none, pending := pending, nextId := s.nextId }

/-- The timeout stage fires (possible only while it is still pending):
its whole body is `requestAnimationFrame(...)`, so it schedules the
frame stage and leaves `#handler` holding the now-stale timer id. -/
def fireTimeout (s : Sched) (id : Nat) : Sched :=
  { handler := s.handler,
    pending := s.pending.filter (· ≠ Cb.timeout id) ++ [Cb.frame s.nextId],
    nextId := s.nextId + 1 }

/-- The frame stage fires (possible only while pending): it draws, runs
`update()` — whose live count is the parameter `count` — clears
`#handler`, and when the count is positive calls `start()` again. -/
def fireFrame (s : Sched) (id : Nat) (count : Nat) : Sched :=
  let s2 : Sched :=
    { handler := none, pending := s.pending.filter (· ≠ Cb.frame id), nextId := s.nextId }
  if count > 0 then startOp s2 else s2

/-- The scheduler states reachable from idle through the engine's
public lifecycle: `start()`, `stop()`, and the two callback stages
firing (each only while it is pending; the frame stage may observe any
live count). -/
inductive Reachable : Sched → Prop where
  | init : Reachable idleSched
  | start {s : Sched} : Reachable s → Reachable (startOp s)
  | stop {s : Sched} : Reachable s → Reachable (stopOp s)
  | fireT {s : Sched} {id : Nat} : Reachable s → Cb.timeout id ∈ s.pending →
      Reachable (fireTimeout s id)
  | fireF {s : Sched} {id count : Nat} : Reachable s → Cb.frame id ∈ s.pending →
      Reachable (fireFrame s id count)

/-! ## Supporting lemmas -/

/-- `Math.round` of an integer-valued number is that integer. -/
theorem jsRound_intCast (n : ℤ) : jsRound (JsNum.fin (n : ℚ)) = some n := by
  simp only [jsRound, floorDiv, Rat.num_intCast, Rat.den_intCast]
  congr 1
  have h : (2 * n + ((1 : ℕ) : ℤ)).fdiv (2 * ((1 : ℕ) : ℤ)) = (2 * n + 1) / 2 := by
    rw [Int.fdiv_eq_ediv _ (by norm_num)]
    norm_num
  rw [h]
  omega

/-- `this.cell` applied to integer arguments coincides with the
post-rounding body `cellZ`. -/
theorem cell_intCast (e : Engine) (n m : ℤ) :
    cell e (JsNum.fin (n : ℚ)) (JsNum.fin (m : ℚ)) = cellZ e n m := by
  simp [cell, jsRound_intCast]

/-- Appending one cell to a column adds its contribution to the live
count. -/
theorem aliveCountCol_concat (l : List Nat) (v : Nat) :
    aliveCountCol (l ++ [v]) = aliveCountCol l + (if v = alive then 1 else 0) := by
  induction l with
  | nil => simp [aliveCountCol]
  | cons c cs ih => simp [aliveCountCol, ih, Nat.add_assoc]

/-- Appending one column to a grid adds its live count. -/
theorem aliveCount_concat (g : List (List Nat)) (col : List Nat) :
    aliveCount (g ++ [col]) = aliveCount g + aliveCountCol col := by
  induction g with
  | nil => simp [aliveCount]
  | cons c cs ih => simp [aliveCount, ih, Nat.add_assoc]

/-- What one successful inner loop of `update`'s grid pass produces:
a column of the right height whose entries are dictated by `stepCell`
on the pre-step grid, with the counter contribution equal to the
column's live count. -/
theorem buildCol_spec (e : Engine) (i : Nat) :
    ∀ (h : Nat) (col : List Nat) (r : Nat), buildCol e i h = some (col, r) →
      col.length = h ∧ r = aliveCountCol col ∧
      ∀ j, j < h → ∃ b, stepCell e i j = some b ∧
        col.get? j = some (if b then alive else dead) := by
  intro h
  induction h with
  | zero =>
    intro col r hc
    simp only [buildCol, Option.some.injEq, Prod.mk.injEq] at hc
    obtain ⟨rfl, rfl⟩ := hc
    exact ⟨rfl, rfl, fun j hj => absurd hj (Nat.not_lt_zero j)⟩
  | succ n ih =>
    intro col r hc
    rw [buildCol] at hc
    cases hb : buildCol e i n with
    | none => rw [hb] at hc; exact absurd hc (by simp)
    | some p =>
      obtain ⟨col0, r0⟩ := p
      cases hs : stepCell e i n with
      | none => rw [hb, hs] at hc; exact absurd hc (by simp)
      | some b =>
        rw [hb, hs] at hc
        simp only [Option.some.injEq, Prod.mk.injEq] at hc
        obtain ⟨hcol, hr⟩ := hc
        obtain ⟨hlen, hcnt, hget⟩ := ih col0 r0 hb
        subst hcol hr
        refine ⟨by simp [hlen], ?_, ?_⟩
        · cases b <;> simp [aliveCountCol_concat, hcnt, alive, dead]
        · intro j hj
          rcases Nat.lt_or_ge j n with hlt | hge
          · obtain ⟨b2, hs2, hg2⟩ := hget j hlt
            exact ⟨b2, hs2, by rw [List.get?_append (by omega), hg2]⟩
          · have hjn : j = n := by omega
            subst hjn
            refine ⟨b, hs, ?_⟩
            have hl : col0.length = j := hlen
            rw [← hl, List.get?_concat_length]

/-- What one successful outer loop of `update`'s grid pass produces:
`width` columns, each built by the inner loop, with the counter equal
to the whole grid's live count. -/
theorem buildGrid_spec (e : Engine) :
    ∀ (w : Nat) (g : List (List Nat)) (r : Nat), buildGrid e w = some (g, r) →
      g.length = w ∧ r = aliveCount g ∧
      ∀ i, i < w → ∃ col rc, buildCol e i e.height = some (col, rc) ∧
        g.get? i = some col := by
  intro w
  induction w with
  | zero =>
    intro g r hc
    simp only [buildGrid, Option.some.injEq, Prod.mk.injEq] at hc
    obtain ⟨rfl, rfl⟩ := hc
    exact ⟨rfl, rfl, fun i hi => absurd hi (Nat.not_lt_zero i)⟩
  | succ n ih =>
    intro g r hc
    rw [buildGrid] at hc
    cases hb : buildGrid e n with
    | none => rw [hb] at hc; exact absurd hc (by simp)
    | some p =>
      obtain ⟨g0, r0⟩ := p
      cases hbc : buildCol e n e.height with
      | none => rw [hb, hbc] at hc; exact absurd hc (by simp)
      | some pc =>
        obtain ⟨col, rc⟩ := pc
        rw [hb, hbc] at hc
        simp only [Option.some.injEq, Prod.mk.injEq] at hc
        obtain ⟨hg, hr⟩ := hc
        obtain ⟨hlen, hcnt, hget⟩ := ih g0 r0 hb
        have hrc : rc = aliveCountCol col := (buildCol_spec e n e.height col rc hbc).2.1
        subst hg hr
        refine ⟨by simp [hlen], by simp [aliveCount_concat, hcnt, hrc], ?_⟩
        intro i hi
        rcases Nat.lt_or_ge i n with hlt | hge
        · obtain ⟨col2, rc2, hbc2, hg2⟩ := hget i hlt
          exact ⟨col2, rc2, hbc2, by rw [List.get?_append (by omega), hg2]⟩
        · have hin : i = n := by omega
          subst hin
          refine ⟨col, rc, hbc, ?_⟩
          have hl : g0.length = i := hlen
          rw [← hl, List.get?_concat_length]

/-- A cell write can only grow a row. -/
theorem setCell_len {W : Nat} {row : List Bool} (x : Nat) (h : W ≤ row.length) :
    W ≤ (setCell row x).length := by
  unfold setCell
  split
  · rwa [List.length_set]
  · simp only [List.length_append, List.length_replicate, List.length_cons,
      List.length_nil]
    omega

/-- `grid[y][x] = alive` preserves the shape invariant. -/
theorem writeAlive_inv {W H : Nat} {g g2 : List (List Bool)} {y x : Nat}
    (hinv : rowInv W H g) (h : writeAlive g y x = some g2) : rowInv W H g2 := by
  unfold writeAlive at h
  cases hg : g.get? y with
  | none => rw [hg] at h; exact absurd h (by simp)
  | some row =>
    rw [hg] at h
    obtain rfl : g.set y (setCell row x) = g2 := by injection h
    refine ⟨by rw [List.length_set]; exact hinv.1, ?_⟩
    intro row2 hmem
    rcases List.mem_or_eq_of_mem_set hmem with h2 | h2
    · exact hinv.2 row2 h2
    · rw [h2]
      exact setCell_len x (hinv.2 row (List.get?_mem hg))

/-- A run of writes preserves the shape invariant. -/
theorem writeRun_inv {W H : Nat} {g : List (List Bool)} {y : Nat} :
    ∀ {n x : Nat} {g2 : List (List Bool)}, rowInv W H g →
      writeRun g y x n = some g2 → rowInv W H g2 := by
  intro n
  induction n generalizing g with
  | zero =>
    intro x g2 hinv h
    rw [writeRun] at h
    obtain rfl : g = g2 := by injection h
    exact hinv
  | succ m ih =>
    intro x g2 hinv h
    rw [writeRun] at h
    cases hw : writeAlive g y x with
    | none => rw [hw] at h; exact absurd h (by simp)
    | some g1 =>
      rw [hw] at h
      exact ih (writeAlive_inv hinv hw) h

/-- Case shape of one body character: it throws, continues (with the
same grid or one produced by an `o`-run of writes), or — exactly on
`!` — returns the current grid. -/
theorem stepChar_shape (st : RleState) (c : Char) :
    stepChar st c = StepRes.err ∨
    (∃ st2, stepChar st c = StepRes.cont st2 ∧
      (st2.grid = st.grid ∨
        writeRun st.grid st.y st.x
          (if st.runCount = 0 then 1 else st.runCount) = some st2.grid)) ∨
    (c = '!' ∧ stepChar st c = StepRes.done st.grid) := by
  unfold stepChar
  by_cases h1 : c = ' ' ∨ c = '\r' ∨ c = '\t'
  · rw [if_pos h1]; exact Or.inr (Or.inl ⟨st, rfl, Or.inl rfl⟩)
  · rw [if_neg h1]
    by_cases h2 : c.isDigit = true
    · rw [if_pos h2]; exact Or.inr (Or.inl ⟨_, rfl, Or.inl rfl⟩)
    · rw [if_neg h2]
      by_cases h3 : c = 'o'
      · rw [if_pos h3]
        cases hw : writeRun st.grid st.y st.x
            (if st.runCount = 0 then 1 else st.runCount) with
        | none => exact Or.inl rfl
        | some g => exact Or.inr (Or.inl ⟨_, rfl, Or.inr rfl⟩)
      · rw [if_neg h3]
        by_cases h4 : c = 'b'
        · rw [if_pos h4]; exact Or.inr (Or.inl ⟨_, rfl, Or.inl rfl⟩)
        · rw [if_neg h4]
          by_cases h5 : c = '$'
          · rw [if_pos h5]; exact Or.inr (Or.inl ⟨_, rfl, Or.inl rfl⟩)
          · rw [if_neg h5]
            by_cases h6 : c = '!'
            · rw [if_pos h6]; exact Or.inr (Or.inr ⟨h6, rfl⟩)
            · rw [if_neg h6]; exact Or.inl rfl

/-- One continuing character preserves the shape invariant. -/
theorem stepChar_cont_inv {W H : Nat} {st st2 : RleState} {c : Char}
    (hinv : rowInv W H st.grid) (h : stepChar st c = StepRes.cont st2) :
    rowInv W H st2.grid := by
  rcases stepChar_shape st c with hs | ⟨st3, hs, hg⟩ | ⟨-, hs⟩
  · rw [hs] at h; exact absurd h (by simp)
  · rw [hs] at h
    obtain rfl : st3 = st2 := by injection h
    rcases hg with hg | hg
    · rwa [hg]
    · exact writeRun_inv hinv hg
  · rw [hs] at h; exact absurd h (by simp)

/-- A `done` outcome happens exactly on `!` and returns the grid held
in the state. -/
theorem stepChar_done_eq {st : RleState} {c : Char} {g : List (List Bool)}
    (h : stepChar st c = StepRes.done g) : g = st.grid ∧ c = '!' := by
  rcases stepChar_shape st c with hs | ⟨st3, hs, -⟩ | ⟨hc, hs⟩
  · rw [hs] at h; exact absurd h (by simp)
  · rw [hs] at h; exact absurd h (by simp)
  · rw [hs] at h
    exact ⟨by injection h with h2; exact h2.symm, hc⟩

/-- One body line preserves the shape invariant, both on the continuing
outcome and on the grid returned by `!`. -/
theorem stepChars_grid_inv {W H : Nat} :
    ∀ (chars : List Char) (st : RleState), rowInv W H st.grid →
      (∀ st2, stepChars st chars = StepRes.cont st2 → rowInv W H st2.grid) ∧
      (∀ g, stepChars st chars = StepRes.done g → rowInv W H g) := by
  intro chars
  induction chars with
  | nil =>
    intro st hinv
    refine ⟨?_, ?_⟩
    · intro st2 h
      rw [stepChars] at h
      obtain rfl : st = st2 := by injection h
      exact hinv
    · intro g h
      rw [stepChars] at h
      exact absurd h (by simp)
  | cons c cs ih =>
    intro st hinv
    refine ⟨?_, ?_⟩
    · intro st2 h
      rw [stepChars] at h
      cases hc : stepChar st c with
      | cont stm => rw [hc] at h; exact (ih stm (stepChar_cont_inv hinv hc)).1 st2 h
      | done g2 => rw [hc] at h; exact absurd h (by simp)
      | err => rw [hc] at h; exact absurd h (by simp)
    · intro g h
      rw [stepChars] at h
      cases hc : stepChar st c with
      | cont stm => rw [hc] at h; exact (ih stm (stepChar_cont_inv hinv hc)).2 g h
      | done g2 =>
        rw [hc] at h
        obtain rfl : g2 = g := by injection h
        rw [(stepChar_done_eq hc).1]
        exact hinv
      | err => rw [hc] at h; exact absurd h (by simp)

/-- The post-header line loop preserves the shape invariant onto any
grid it returns. -/
theorem processLines_inv {W H : Nat} :
    ∀ (lines : List (List Char)) (st : RleState), rowInv W H st.grid →
      ∀ g, processLines st lines = RleOut.grid g → rowInv W H g := by
  intro lines
  induction lines with
  | nil =>
    intro st hinv g h
    rw [processLines] at h
    exact absurd h (by simp)
  | cons line rest ih =>
    intro st hinv g h
    simp only [processLines] at h
    by_cases he : (trimChars line).isEmpty
    · rw [if_pos he] at h; exact ih st hinv g h
    · rw [if_neg he] at h
      by_cases hhash : (trimChars line).head? = some '#'
      · rw [if_pos hhash] at h; exact ih st hinv g h
      · rw [if_neg hhash] at h
        cases hc : stepChars st (trimChars line) with
        | cont st2 =>
          rw [hc] at h
          exact ih st2 ((stepChars_grid_inv (trimChars line) st hinv).1 st2 hc) g h
        | done g2 =>
          rw [hc] at h
          have hge : g2 = g := by injection h
          rw [← hge]
          exact (stepChars_grid_inv (trimChars line) st hinv).2 g2 hc
        | err => rw [hc] at h; exact absurd h (by simp)

/-- `loadRle` on the line level: any returned grid has the header's
declared number of rows and rows at least the declared width. -/
theorem loadRleLines_dims :
    ∀ (lines : List (List Char)) (W H : Nat) (g : List (List Bool)),
      firstHeader lines = some (W, H) → loadRleLines lines = RleOut.grid g →
      g.length = H ∧ ∀ row ∈ g, W ≤ row.length := by
  intro lines
  induction lines with
  | nil => intro W H g hh hl; rw [firstHeader] at hh; exact absurd hh (by simp)
  | cons line rest ih =>
    intro W H g hh hl
    simp only [firstHeader] at hh
    simp only [loadRleLines] at hl
    by_cases he : (trimChars line).isEmpty
    · rw [if_pos he] at hh hl; exact ih W H g hh hl
    · rw [if_neg he] at hh hl
      by_cases hhash : (trimChars line).head? = some '#'
      · rw [if_pos hhash] at hh hl; exact ih W H g hh hl
      · rw [if_neg hhash] at hh hl
        rw [hh] at hl
        have hinv : rowInv W H (List.replicate H (List.replicate W false)) := by
          refine ⟨List.length_replicate H _, ?_⟩
          intro row hrow
          rw [List.eq_of_mem_replicate hrow, List.length_replicate]
        exact processLines_inv rest _ hinv g hl

/-- Dropping a prefix cannot create new characters. -/
theorem mem_of_mem_dropWhile {c : Char} {p : Char → Bool} :
    ∀ {l : List Char}, c ∈ l.dropWhile p → c ∈ l := by
  intro l
  induction l with
  | nil => intro h; simp at h
  | cons a as ih =>
    intro h
    rw [List.dropWhile_cons] at h
    by_cases hp : p a = true
    · rw [if_pos hp] at h
      exact List.mem_cons_of_mem a (ih h)
    · rwa [if_neg hp] at h

/-- Trimming cannot create new characters. -/
theorem mem_of_mem_trimChars {c : Char} {l : List Char} (h : c ∈ trimChars l) :
    c ∈ l := by
  unfold trimChars at h
  rw [List.mem_reverse] at h
  have h2 := mem_of_mem_dropWhile h
  rw [List.mem_reverse] at h2
  exact mem_of_mem_dropWhile h2

/-- Characters of the segments produced by splitting on newlines all
come from the input. -/
theorem splitNlAux_mem {c : Char} :
    ∀ {l : List Char},
      (c ∈ (splitNlAux l).1 → c ∈ l) ∧
      (∀ line ∈ (splitNlAux l).2, c ∈ line → c ∈ l) := by
  intro l
  induction l with
  | nil => exact ⟨by simp [splitNlAux], by simp [splitNlAux]⟩
  | cons a as ih =>
    by_cases ha : a = '\n'
    · refine ⟨?_, ?_⟩
      · intro h
        simp only [splitNlAux, if_pos ha] at h
        simp at h
      · intro line hline hc
        simp only [splitNlAux, if_pos ha] at hline
        rcases List.mem_cons.mp hline with rfl | h2
        · exact List.mem_cons_of_mem a (ih.1 hc)
        · exact List.mem_cons_of_mem a (ih.2 line h2 hc)
    · refine ⟨?_, ?_⟩
      · intro h
        simp only [splitNlAux, if_neg ha] at h
        rcases List.mem_cons.mp h with rfl | h2
        · exact List.mem_cons_self c as
        · exact List.mem_cons_of_mem a (ih.1 h2)
      · intro line hline hc
        simp only [splitNlAux, if_neg ha] at hline
        exact List.mem_cons_of_mem a (ih.2 line hline hc)

/-- If the input has no `!`, no line of the split has one either. -/
theorem noBang_lines {input : List Char} (h : '!' ∉ input) :
    ∀ line ∈ splitNl input, '!' ∉ line := by
  intro line hline hc
  unfold splitNl at hline
  rcases List.mem_cons.mp hline with rfl | h2
  · exact h (splitNlAux_mem.1 hc)
  · exact h (splitNlAux_mem.2 line h2 hc)

/-- A body line with no `!` can never produce the `done` outcome. -/
theorem stepChars_noBang :
    ∀ (chars : List Char) (st : RleState), '!' ∉ chars →
      ∀ g, stepChars st chars ≠ StepRes.done g := by
  intro chars
  induction chars with
  | nil =>
    intro st h g hc
    rw [stepChars] at hc
    exact absurd hc (by simp)
  | cons c cs ih =>
    intro st h g hc
    rw [stepChars] at hc
    cases hs : stepChar st c with
    | cont st2 =>
      rw [hs] at hc
      exact ih st2 (fun h2 => h (List.mem_cons_of_mem c h2)) g hc
    | done g2 =>
      have hbang := (stepChar_done_eq hs).2
      exact h (hbang ▸ List.mem_cons_self c cs)
    | err => rw [hs] at hc; exact absurd hc (by simp)

/-- The post-header line loop never returns a grid when no line
contains a `!`. -/
theorem processLines_noBang :
    ∀ (lines : List (List Char)) (st : RleState),
      (∀ line ∈ lines, '!' ∉ line) →
      ∀ g, processLines st lines ≠ RleOut.grid g := by
  intro lines
  induction lines with
  | nil =>
    intro st h g hc
    rw [processLines] at hc
    exact absurd hc (by simp)
  | cons line rest ih =>
    intro st h g hc
    have hrest : ∀ l2 ∈ rest, '!' ∉ l2 :=
      fun l2 h2 => h l2 (List.mem_cons_of_mem line h2)
    simp only [processLines] at hc
    by_cases he : (trimChars line).isEmpty
    · rw [if_pos he] at hc; exact ih st hrest g hc
    · rw [if_neg he] at hc
      by_cases hhash : (trimChars line).head? = some '#'
      · rw [if_pos hhash] at hc; exact ih st hrest g hc
      · rw [if_neg hhash] at hc
        cases hs : stepChars st (trimChars line) with
        | cont st2 => rw [hs] at hc; exact ih st2 hrest g hc
        | done g2 =>
          refine stepChars_noBang (trimChars line) st ?_ g2 hs
          intro hmem
          exact h line (List.mem_cons_self line rest) (mem_of_mem_trimChars hmem)
        | err => rw [hs] at hc; exact absurd hc (by simp)

/-- The whole of `loadRle` never returns a grid when the input has no
`!` in any line. -/
theorem loadRleLines_noBang :
    ∀ (lines : List (List Char)),
      (∀ line ∈ lines, '!' ∉ line) →
      ∀ g, loadRleLines lines ≠ RleOut.grid g := by
  intro lines
  induction lines with
  | nil =>
    intro h g hc
    rw [loadRleLines] at hc
    exact absurd hc (by simp)
  | cons line rest ih =>
    intro h g hc
    have hrest : ∀ l2 ∈ rest, '!' ∉ l2 :=
      fun l2 h2 => h l2 (List.mem_cons_of_mem line h2)
    simp only [loadRleLines] at hc
    by_cases he : (trimChars line).isEmpty
    · rw [if_pos he] at hc; exact ih hrest g hc
    · rw [if_neg he] at hc
      by_cases hhash : (trimChars line).head? = some '#'
      · rw [if_pos hhash] at hc; exact ih hrest g hc
      · rw [if_neg hhash] at hc
        cases hex : execHeader (trimChars line) with
        | none => rw [hex] at hc; exact absurd hc (by simp)
        | some wh =>
          obtain ⟨w2, h2⟩ := wh
          rw [hex] at hc
          exact processLines_noBang rest _ hrest g hc

/-- The inner `switch` of `update`'s closure, as a value: picking the
new cell from the old cell `c` and the neighbour count `n`. -/
theorem stepBool_eq (n c : Nat) :
    (if (if c = alive then decide (n = 2 ∨ n = 3)
         else if c = dead then decide (n = 3) else false) then alive else dead) =
      if (c = alive ∧ (n = 2 ∨ n = 3)) ∨ (c = dead ∧ n = 3) then alive else dead := by
  by_cases h1 : c = alive
  · by_cases h2 : n = 2 ∨ n = 3 <;> simp [h1, h2, alive, dead]
  · by_cases h3 : c = dead
    · by_cases h4 : n = 3 <;> simp [h1, h3, h4]
    · simp [h1, h3]

/-! ## Claim theorems -/

/-- Claim C1: a single `update()` recomputes every cell of the
`width × height` grid in one pass from the pre-step grid `e.grid` (the
embedding reads only `e`, which is never modified during the pass): at
every coordinate the neighbour count is obtained through the eight
`cell`-rule lookups of `neighbours` on the pre-step grid, a live cell
with exactly 2 or 3 live neighbours stays alive, a dead cell with
exactly 3 live neighbours becomes alive, every other cell is dead, and
the returned counter is the number of live cells of the resulting
grid. -/
theorem c1_step (e : Engine) (g2 : List (List Nat)) (r : Nat)
    (hu : update e = some (g2, r)) :
    g2.length = e.width ∧
    (∀ col ∈ g2, col.length = e.height) ∧
    (∀ i j, i < e.width → j < e.height →
      ∃ n c, neighbours e (i : ℤ) (j : ℤ) = some n ∧ gridGet e.grid i j = some c ∧
        gridGet g2 i j =
          some (if (c = alive ∧ (n = 2 ∨ n = 3)) ∨ (c = dead ∧ n = 3) then alive
                else dead)) ∧
    r = aliveCount g2 := by
  obtain ⟨hlen, hcnt, hget⟩ := buildGrid_spec e e.width g2 r hu
  refine ⟨hlen, ?_, ?_, hcnt⟩
  · intro col hcol
    obtain ⟨i, hi⟩ := List.mem_iff_get?.mp hcol
    have hiw : i < e.width := by
      obtain ⟨hlt, -⟩ := List.get?_eq_some.mp hi
      omega
    obtain ⟨col2, rc, hbc, hg⟩ := hget i hiw
    rw [hi] at hg
    obtain rfl : col = col2 := by injection hg
    exact (buildCol_spec e i e.height col rc hbc).1
  · intro i j hi hj
    obtain ⟨col, rc, hbc, hg⟩ := hget i hi
    obtain ⟨b, hs, hcolj⟩ := (buildCol_spec e i e.height col rc hbc).2.2 j hj
    simp only [stepCell, bind, Option.bind_eq_some, Option.pure_def,
      Option.some.injEq] at hs
    obtain ⟨n, hn, c, hc, hb⟩ := hs
    refine ⟨n, c, hn, hc, ?_⟩
    simp only [gridGet]
    rw [hg, Option.some_bind, hcolj, ← hb]
    exact congrArg some (stepBool_eq n c)

/-- Witness for `c1_step`: a horizontal blinker on a bounded 3×3 grid
steps to the vertical blinker with live count 3. -/
theorem c1_step_witness :
    update ⟨3, 3, false, [[0, 1, 0], [0, 1, 0], [0, 1, 0]]⟩ =
      some ([[0, 0, 0], [1, 1, 1], [0, 0, 0]], 3) ∧
    ([[0, 0, 0], [1, 1, 1], [0, 0, 0]] : List (List Nat)).length = 3 :=
  ⟨by decide, (c1_step ⟨3, 3, false, [[0, 1, 0], [0, 1, 0], [0, 1, 0]]⟩
    [[0, 0, 0], [1, 1, 1], [0, 0, 0]] 3 (by decide)).1⟩

/-- Claim C3: in bounded mode, on an engine whose grid has the
engine's dimensions (as every constructed engine does), `cell(i, j)` is
total and never raises: every call returns a value, every integer
coordinate outside `[0, W) × [0, H)` yields `dead`, and every
non-finite argument (`NaN` or an infinity, i.e. a coordinate whose
rounding is `none`) yields `dead`. -/
theorem c3_bounded_total (e : Engine) (ht : e.torus = false)
    (hw : e.grid.length = e.width) (hh : ∀ col ∈ e.grid, col.length = e.height) :
    (∀ i j : JsNum, ∃ v, cell e i j = some v) ∧
    (∀ zi zj : ℤ, zi < 0 ∨ (e.width : ℤ) ≤ zi ∨ zj < 0 ∨ (e.height : ℤ) ≤ zj →
      cellZ e zi zj = some dead) ∧
    (∀ i j : JsNum, jsRound i = none ∨ jsRound j = none → cell e i j = some dead) := by
  have hout2 : ∀ zi zj : ℤ, zi < 0 ∨ (e.width : ℤ) ≤ zi ∨ zj < 0 ∨ (e.height : ℤ) ≤ zj →
      cellZ e zi zj = some dead := by
    intro zi zj hout
    unfold cellZ
    rw [ht]
    simp only [Bool.false_eq_true, if_false]
    rw [if_pos hout]
  refine ⟨?_, hout2, ?_⟩
  · intro i j
    cases hi : jsRound i with
    | none => exact ⟨dead, by cases hj : jsRound j <;> simp [cell, hi, hj]⟩
    | some zi =>
      cases hj : jsRound j with
      | none => exact ⟨dead, by simp [cell, hi, hj]⟩
      | some zj =>
        have hcell : cell e i j = cellZ e zi zj := by simp [cell, hi, hj]
        rw [hcell]
        by_cases hout : zi < 0 ∨ (e.width : ℤ) ≤ zi ∨ zj < 0 ∨ (e.height : ℤ) ≤ zj
        · exact ⟨dead, hout2 zi zj hout⟩
        · unfold cellZ
          rw [ht]
          simp only [Bool.false_eq_true, if_false]
          rw [if_neg hout]
          push_neg at hout
          obtain ⟨h1, h2, h3, h4⟩ := hout
          unfold gridGetZ
          rw [if_neg (by omega)]
          unfold gridGet
          cases hcol : e.grid.get? zi.toNat with
          | none => exact absurd (List.get?_eq_none.mp hcol) (by rw [hw]; omega)
          | some coli =>
            have hlen : coli.length = e.height := hh coli (List.get?_mem hcol)
            cases hcv : coli.get? zj.toNat with
            | none => exact absurd (List.get?_eq_none.mp hcv) (by rw [hlen]; omega)
            | some v => exact ⟨v, by rw [Option.some_bind, hcv]⟩
  · intro i j hn
    rcases hn with h | h
    · cases hj : jsRound j <;> simp [cell, h, hj]
    · cases hi : jsRound i <;> simp [cell, h, hi]

/-- Witness for `c3_bounded_total` on a bounded 2×2 engine at the
out-of-range coordinate (-5, 7). -/
theorem c3_bounded_total_witness :
    (⟨2, 2, false, [[0, 0], [0, 0]]⟩ : Engine).torus = false ∧
    cellZ ⟨2, 2, false, [[0, 0], [0, 0]]⟩ (-5) 7 = some dead :=
  ⟨rfl, (c3_bounded_total ⟨2, 2, false, [[0, 0], [0, 0]]⟩ rfl rfl (by decide)).2.1 (-5) 7
    (by decide)⟩

/-- Claim C2: the claim states that in toroidal mode `cell(i, j)` always
equals `cell(i mod W, j mod H)` with a floor-style modulo and never
accesses outside the grid.  The code computes `width + i % width` with
the truncating `%` for negative `i`, which yields the out-of-range
index `width` whenever `i` is a negative multiple of the width: on a
3×3 torus whose cell (0,0) is alive, `cell(-3, 0)` reads `grid[3][0]`
and throws (`none`) instead of returning `cell(0, 0) = alive`. -/
theorem c2_torus_wrap_bug :
    cell ⟨3, 3, true, [[1, 0, 0], [0, 0, 0], [0, 0, 0]]⟩ (JsNum.fin (-3)) (JsNum.fin 0) = none ∧
    cell ⟨3, 3, true, [[1, 0, 0], [0, 0, 0], [0, 0, 0]]⟩ (JsNum.fin 0) (JsNum.fin 0) =
      some alive := by
  decide

/-- Claim C5 (counterexample): the claim states that a pending run count
before `$` is discarded.  On `"x = 2, y = 2\n2$o!"` the code carries
the pending `2` across the row end, so the lone `o` after `$` marks two
cells of row 1 — the grid differs from the discarding dialect
(`loadRleDiscard`), which marks only one. -/
theorem c5_counterexample :
    loadRle (("x = 2, y = 2\n2$o!").data) = RleOut.grid [[false, false], [true, true]] ∧
    loadRleDiscard (("x = 2, y = 2\n2$o!").data) = RleOut.grid [[false, false], [true, false]] ∧
    loadRle (("x = 2, y = 2\n2$o!").data) ≠ loadRleDiscard (("x = 2, y = 2\n2$o!").data) := by
  decide

/-- Claim C5 (amended): a `$` tag ends the current row — it resets the
cursor's x to 0 and increments y — but the pending run count is NOT
discarded: `runCount` is left untouched and is therefore carried into
the next row's first tag. -/
theorem c5_rowEnd (st : RleState) :
    stepChar st '$' =
      StepRes.cont { grid := st.grid, runCount := st.runCount, x := 0, y := st.y + 1 } :=
  rfl

/-- Claim C7 (counterexample): the claim states that the centering
offset computed on the first call is reused by every later call even if
later calls see different engine dimensions.  With a 1×1 pattern the
first call on a 1×1 engine computes offset 0; because `0` is falsy,
`if (!tranX)` recomputes the offset on the second call from the new
5-wide dimensions, answering `true` at x = 2 — the spec's
compute-once predicate (`fillerCallOnce`) answers `false` there. -/
theorem c7_counterexample :
    (fillerCall 1 1 [[true]] (fillerCall 1 1 [[true]] ⟨none, none⟩ 0 0 1 1).1 2 0 5 1).2 =
      true ∧
    (fillerCallOnce 1 1 [[true]] (fillerCallOnce 1 1 [[true]] ⟨none, none⟩ 0 0 1 1).1
        2 0 5 1).2 = false := by
  decide

/-- Claim C7 (amended): the first call computes the centering offset
`(floor((gw - w)/2), floor((gh - h)/2))` from that call's engine
dimensions and stores it; a later call reuses the stored offset
provided both stored components are nonzero (a zero component is falsy
and is recomputed from the current call's dimensions). -/
theorem c7_offset_caching :
    (∀ (w h : Nat) (grid : List (List Bool)) (x y gw gh : ℤ),
      fillerCall w h grid ⟨none, none⟩ x y gw gh =
        (⟨some (computeTran gw w), some (computeTran gh h)⟩,
         fillerLookup grid w h (x - computeTran gw w) (y - computeTran gh h))) ∧
    (∀ (w h : Nat) (grid : List (List Bool)) (a b x y gw gh : ℤ),
      a ≠ 0 → b ≠ 0 →
      fillerCall w h grid ⟨some a, some b⟩ x y gw gh =
        (⟨some a, some b⟩, fillerLookup grid w h (x - a) (y - b))) := by
  refine ⟨fun w h grid x y gw gh => rfl, fun w h grid a b x y gw gh ha hb => ?_⟩
  simp [fillerCall, ha, hb]

/-- Witness for `c7_offset_caching` at a concrete cached state. -/
theorem c7_offset_caching_witness :
    (1 : ℤ) ≠ 0 ∧
    fillerCall 1 1 [[true]] ⟨some 1, some 1⟩ 0 0 9 9 =
      (⟨some 1, some 1⟩, fillerLookup [[true]] 1 1 (0 - 1) (0 - 1)) :=
  ⟨by decide, c7_offset_caching.2 1 1 [[true]] 1 1 0 0 9 9 (by decide) (by decide)⟩

/-- Claim C8 (counterexample): the claim states that construction fails
whenever the surface yields less than a 1×1 grid and whenever
`framesPerSecond` is not a positive number.  A 0×0 canvas constructs
successfully (an empty grid), and `framesPerSecond = 0` — even a
non-number — is accepted without any check. -/
theorem c8_counterexample :
    construct 0 0 none (SizeArg.ofNum (JsNum.fin 10)) false (SizeArg.ofNum (JsNum.fin 5)) =
      CtorResult.ok ⟨0, 0, false, []⟩ ∧
    construct 100 100 none (SizeArg.ofNum (JsNum.fin 10)) false (SizeArg.ofNum (JsNum.fin 0)) =
      CtorResult.ok ⟨10, 10, false, List.replicate 10 (List.replicate 10 0)⟩ ∧
    construct 100 100 none (SizeArg.ofNum (JsNum.fin 10)) false SizeArg.notNum =
      CtorResult.ok ⟨10, 10, false, List.replicate 10 (List.replicate 10 0)⟩ := by
  decide

/-- Claim C8 (amended): construction throws whenever `cellSize` is not
a number, or is `NaN`, infinite, or negative; a `cellSize` of exactly 0
passes validation but the grid allocation then throws an
invalid-array-length error.  Neither `framesPerSecond` nor the derived
grid size is validated: construction succeeds exactly when `cellSize`
is a finite number strictly greater than 0, whatever the surface size
or `framesPerSecond`. -/
theorem c8_validation (cw ch : Nat) (filler : Option (Nat → Nat → Bool))
    (size : SizeArg) (torus : Bool) (fps : SizeArg) :
    (∃ e, construct cw ch filler size torus fps = CtorResult.ok e) ↔
      ∃ q, size = SizeArg.ofNum (JsNum.fin q) ∧ 0 < q := by
  constructor
  · rintro ⟨e, he⟩
    match size with
    | .notNum => simp [construct] at he
    | .ofNum .nan => simp [construct] at he
    | .ofNum .posInf => simp [construct] at he
    | .ofNum .negInf => simp [construct] at he
    | .ofNum (.fin q) =>
      refine ⟨q, rfl, ?_⟩
      by_contra hq
      rcases lt_or_eq_of_le (not_lt.mp hq) with h0 | h0
      · simp [construct, h0] at he
      · simp [construct, ← h0] at he
  · rintro ⟨q, rfl, hq⟩
    have h1 : ¬ q < 0 := not_lt.mpr (le_of_lt hq)
    have h2 : ¬ q = 0 := ne_of_gt hq
    simp only [construct, if_neg h1, if_neg h2]
    exact ⟨_, rfl⟩

/-- Claim C9 (counterexample): the claim states that at most one pending
step is scheduled in every reachable state.  Calling `stop()` then
`start()` in the window between a timeout's firing and its
animation-frame callback running reaches a state with two pending
callbacks: the old frame stage and a new timeout. -/
theorem c9_counterexample :
    Reachable ⟨some 3, [Cb.frame 2, Cb.timeout 3], 4⟩ ∧
    (⟨some 3, [Cb.frame 2, Cb.timeout 3], 4⟩ : Sched).pending.length = 2 := by
  constructor
  · have h1 := Reachable.start Reachable.init
    have h2 := Reachable.fireT h1 (by decide : Cb.timeout 1 ∈ (startOp idleSched).pending)
    have h3 := Reachable.stop h2
    have h4 := Reachable.start h3
    exact (by decide :
      startOp (stopOp (fireTimeout (startOp idleSched) 1)) =
        ⟨some 3, [Cb.frame 2, Cb.timeout 3], 4⟩) ▸ h4
  · decide

/-- Claim C9 (amended): `start()` is idempotent — a second `start()`
without an intervening `stop()` is a no-op, so the pair schedules
exactly one new pending step — and `stop()` in a state whose `#handler`
is undefined (in particular the idle state) changes nothing.  The
global at-most-one-pending invariant does NOT hold (see the
counterexample). -/
theorem c9_lifecycle :
    (∀ s : Sched, startOp (startOp s) = startOp s) ∧
    (∀ s : Sched, s.handler = none → stopOp s = s) := by
  constructor
  · intro s
    cases s with
    | mk h p n => cases h <;> rfl
  · intro s hs
    cases s with
    | mk h p n =>
      cases h with
      | none => rfl
      | some v => exact absurd hs (by simp)

/-- Witness for `c9_lifecycle` at the idle state. -/
theorem c9_lifecycle_witness :
    startOp (startOp idleSched) = startOp idleSched ∧ stopOp idleSched = idleSched :=
  ⟨c9_lifecycle.1 idleSched, c9_lifecycle.2 idleSched rfl⟩

/-- `#createGrid` with no filler: every column is `height` copies of
`dead`. -/
theorem createGrid_none (w h : Nat) :
    createGrid w h none = List.replicate w (List.replicate h dead) := by
  simp only [createGrid]
  induction w with
  | zero => rfl
  | succ n ih =>
    rw [List.range_succ, List.map_append, ih, List.replicate_succ']
    rfl

/-- Claim C10: constructing the engine with the filler omitted (or
null/undefined — the `none` filler) still builds the full
`width × height` grid, and every cell of the seeded grid is `dead`. -/
theorem c10_nullFiller (cw ch : Nat) (q : ℚ) (torus : Bool) (fps : SizeArg) (e : Engine)
    (h : construct cw ch none (SizeArg.ofNum (JsNum.fin q)) torus fps = CtorResult.ok e) :
    e.grid = List.replicate e.width (List.replicate e.height dead) := by
  simp only [construct] at h
  split at h
  · exact absurd h (by simp)
  · split at h
    · exact absurd h (by simp)
    · rw [CtorResult.ok.injEq] at h
      subst h
      exact createGrid_none _ _

/-- Claim C4 (counterexample): the claim states that for every valid
header the decoded grid has exactly the declared number of columns in
each row, regardless of how the body's runs relate to the declared
dimensions.  With header `x = 1, y = 1` the body `2o!` writes past the
declared width, growing row 0 to two cells. -/
theorem c4_counterexample :
    firstHeader (splitNl (("x = 1, y = 1\n2o!").data)) = some (1, 1) ∧
    loadRle (("x = 1, y = 1\n2o!").data) = RleOut.grid [[true, true]] ∧
    ([true, true] : List Bool).length ≠ 1 := by
  decide

/-- Claim C4 (amended): for every RLE text whose first effective line
declares `x = W, y = H`, any grid the decoder returns has exactly `H`
rows — the rows are created all-Dead by the header and never added or
removed — and every row has at least `W` columns; a row exceeds `W`
exactly when an `o`-run writes past the declared width (and a write on
a row index at or beyond `H` throws instead of returning a grid). -/
theorem c4_amended (input : List Char) (W H : Nat) (g : List (List Bool))
    (hh : firstHeader (splitNl input) = some (W, H))
    (hl : loadRle input = RleOut.grid g) :
    g.length = H ∧ ∀ row ∈ g, W ≤ row.length :=
  loadRleLines_dims (splitNl input) W H g hh hl

/-- Witness for `c4_amended` on the glider-less one-liner
`x = 2, y = 1` / `o!`. -/
theorem c4_amended_witness :
    firstHeader (splitNl (("x = 2, y = 1\no!").data)) = some (2, 1) ∧
    loadRle (("x = 2, y = 1\no!").data) = RleOut.grid [[true, false]] ∧
    ([[true, false]] : List (List Bool)).length = 1 :=
  ⟨by decide, by decide,
    (c4_amended (("x = 2, y = 1\no!").data) 2 1 [[true, false]]
      (by decide) (by decide)).1⟩

/-- Claim C6 (counterexample): the claim states that when the body has
no `!` the decoder still returns the grid built so far at end of input.
On `"x = 1, y = 1\no"` the function falls off the end of its line loop
and returns `undefined` — no grid. -/
theorem c6_counterexample :
    loadRle (("x = 1, y = 1\no").data) = RleOut.noGrid ∧
    isGridResult RleOut.noGrid = false := by
  decide

/-- Claim C6 (amended): a `!` terminates decoding immediately — the
grid built so far is returned and the remaining input is never
examined — but an input containing no `!` makes `loadRle` fall off the
end of its loop and return `undefined` (`noGrid`), never a grid. -/
theorem c6_amended :
    (∀ (st : RleState) (rest : List Char),
      stepChars st ('!' :: rest) = StepRes.done st.grid) ∧
    (∀ (input : List Char), '!' ∉ input →
      ∀ g, loadRle input ≠ RleOut.grid g) := by
  constructor
  · intro st rest
    rfl
  · intro input h g
    exact loadRleLines_noBang (splitNl input) (noBang_lines h) g

/-- Witness for `c6_amended` on a bang-free input. -/
theorem c6_amended_witness :
    ('!' ∉ ("x = 1, y = 1\no").data) ∧
    loadRle (("x = 1, y = 1\no").data) ≠ RleOut.grid [[true]] :=
  ⟨by decide, c6_amended.2 (("x = 1, y = 1\no").data) (by decide) [[true]]⟩

/-- Witness for `c10_nullFiller` on a 30×20 canvas with cell size 10. -/
theorem c10_nullFiller_witness :
    construct 30 20 none (SizeArg.ofNum (JsNum.fin 10)) false (SizeArg.ofNum (JsNum.fin 5)) =
      CtorResult.ok ⟨3, 2, false, [[0, 0], [0, 0], [0, 0]]⟩ ∧
    (⟨3, 2, false, [[0, 0], [0, 0], [0, 0]]⟩ : Engine).grid =
      List.replicate 3 (List.replicate 2 dead) :=
  ⟨by decide, c10_nullFiller 30 20 10 false (SizeArg.ofNum (JsNum.fin 5)) _ (by decide)⟩

end GoL

